import Mathlib

/-!
Verification model of the CrazyNote content script (`content.js`):
the resilient text-anchor and highlight-restoration engine.

The DOM tree is shallowly embedded as `Node`: an element node carries its
tag name (in canonical lower case, as the host reports `localName`; the
uppercase `tagName` of the source corresponds to the same name, so the
source's comparisons against `'SCRIPT'`/`'STYLE'`/`'NOSCRIPT'` and its
`tagName.toLowerCase()` are rendered directly on the stored name), its
attribute list, its *computed* style (`display` and `visibility`, as
`getComputedStyle` would report them), and its children; a text node
carries its character data.  JS strings are embedded as `List Char` so
that every definition evaluates by kernel reduction.  Positions into a
tree are lists of child indices (`[]` is the node itself).

Host DOM APIs used by the source (`querySelector`, `createTreeWalker`,
`document.evaluate`, `Range.surroundContents`, `Node.normalize`) are
modelled by executable functions following their standard semantics,
restricted to the shapes of input the source produces.
-/

namespace CrazyNote

/-- The embedding of a JS string. -/
abbrev JSString := List Char

/-- Character data of a Lean string literal, as a `JSString`. -/
def js (s : String) : JSString := s.data

/-- A DOM node: element (tag, attributes, computed display, computed
visibility, children) or text (character data). -/
inductive Node where
  | elem (tag : JSString) (attrs : List (JSString × JSString))
      (display : JSString) (visibility : JSString) (children : List Node)
  | text (s : JSString)

/-- A position in a tree: the list of child indices from the root. -/
abbrev Pos := List Nat

/-- First value bound to a key in an attribute list (DOM `getAttribute`). -/
def attrLookup : List (JSString × JSString) → JSString → Option JSString
  | [], _ => none
  | (k2, v) :: rest, k => if k2 = k then some v else attrLookup rest k

mutual

/-- The `textContent` of a node: concatenation of all text data beneath it. -/
def textContent : Node → JSString
  | .text s => s
  | .elem _ _ _ _ cs => textContentL cs

/-- The `textContent` of a list of sibling nodes, in order. -/
def textContentL : List Node → JSString
  | [] => []
  | c :: rest => textContent c ++ textContentL rest

end

mutual

/-- The subtree rooted at position `p`, if `p` is valid. -/
def subtreeAt : Node → Pos → Option Node
  | n, [] => some n
  | .text _, _ :: _ => none
  | .elem _ _ _ _ cs, j :: r => subtreeAtL cs j r

/-- Helper of `subtreeAt` stepping into child `j` of a sibling list. -/
def subtreeAtL : List Node → Nat → Pos → Option Node
  | [], _, _ => none
  | c :: _, 0, r => subtreeAt c r
  | _ :: rest, j + 1, r => subtreeAtL rest j r

end

mutual

/-- Rewrite the subtree at position `p` with `f` (identity off-tree). -/
def modifyAt : Node → Pos → (Node → Node) → Node
  | n, [], f => f n
  | .text s, _ :: _, _ => .text s
  | .elem tg a d v cs, j :: r, f => .elem tg a d v (modifyAtL cs j r f)

/-- Helper of `modifyAt` stepping into child `j` of a sibling list. -/
def modifyAtL : List Node → Nat → Pos → (Node → Node) → List Node
  | [], _, _, _ => []
  | c :: rest, 0, r, f => modifyAt c r f :: rest
  | c :: rest, j + 1, r, f => c :: modifyAtL rest j r f

end

/-- The `textContent` of the subtree at `p`, if `p` is valid. -/
def textContentAt (doc : Node) (p : Pos) : Option JSString :=
  (subtreeAt doc p).map textContent

/-- Shift the leading coordinate of a position by one (used when a node
is addressed relative to the tail of a sibling list). -/
def bump : Pos → Pos
  | [] => []
  | j :: r => (j + 1) :: r

mutual

/-- Position of the first element (document order, self included) whose
attribute `k` equals `v` — the model of `document.querySelector`
with an exact attribute selector, and of XPath `//*[@id="v"]`. -/
def firstElemWithAttr (k v : JSString) : Node → Option Pos
  | .text _ => none
  | .elem _ a _ _ cs =>
      if attrLookup a k = some v then some [] else firstElemWithAttrL k v cs

/-- Run of `firstElemWithAttr` over a sibling list; the head coordinate of the
returned position is the index into the list. -/
def firstElemWithAttrL (k v : JSString) : List Node → Option Pos
  | [] => none
  | c :: rest =>
      match firstElemWithAttr k v c with
      | some q => some (0 :: q)
      | none => (firstElemWithAttrL k v rest).map bump

end

mutual

/-- Number of elements (self included) whose attribute `k` equals `v`. -/
def countElemsWithAttr (k v : JSString) : Node → Nat
  | .text _ => 0
  | .elem _ a _ _ cs =>
      (if attrLookup a k = some v then 1 else 0) + countElemsWithAttrL k v cs

/-- Run of `countElemsWithAttr` over a sibling list. -/
def countElemsWithAttrL (k v : JSString) : List Node → Nat
  | [] => 0
  | c :: rest => countElemsWithAttr k v c + countElemsWithAttrL k v rest

end

/-! ### JS string search (`String.prototype.indexOf`) -/

/-- First index at which `t` occurs in `s` as a contiguous substring
(JS `s.indexOf(t)`, with `none` for `-1`).  As in JS, the empty string
occurs at index 0 of every string. -/
def firstIndexOf (s t : JSString) : Option Nat :=
  if t.isPrefixOf s then some 0
  else
    match s with
    | [] => none
    | _ :: s2 => (firstIndexOf s2 t).map (· + 1)

/-! ### `findElementContainingText` (TextLocator)

The walker of the source (`document.createTreeWalker(document.body,
NodeFilter.SHOW_TEXT, filter)`) visits the text nodes below `document.body`
in document order; the filter rejects a text node when its parent element's
computed style is `display:none`/`visibility:hidden` or the parent is a
`SCRIPT`/`STYLE`/`NOSCRIPT` element, and accepts it when its data contains
the target.  The function returns the accepted node's `parentElement`. -/

mutual

/-- Walker visit of one node.  A text node is accepted when the enclosing
parent element (position `ppos`, tag `ptag`, computed display `pdisp`,
computed visibility `pvis`) is visible and not a script-like container and
the node's data contains `t`; the result is the parent element's position.
An element is traversed (`selfIdx` is its index in the parent). -/
def ftNode (t : JSString) (ppos : Pos) (selfIdx : Nat)
    (ptag pdisp pvis : JSString) : Node → Option Pos
  | .text s =>
      if pdisp ≠ js "none" ∧ pvis ≠ js "hidden" ∧
          ptag ∉ [js "script", js "style", js "noscript"] ∧
          (firstIndexOf s t).isSome = true
      then some ppos
      else none
  | .elem tg _ d v cs => ftList t (ppos ++ [selfIdx]) tg d v cs 0

/-- Walker scan of a sibling list below the parent element at `pos`. -/
def ftList (t : JSString) (pos : Pos) (ptag pdisp pvis : JSString) :
    List Node → Nat → Option Pos
  | [], _ => none
  | c :: rest, i =>
      match ftNode t pos i ptag pdisp pvis c with
      | some r => some r
      | none => ftList t pos ptag pdisp pvis rest (i + 1)

end

/-- Index and node of the first element child with tag `body`
(`document.body` relative to the document root's child list). -/
def bodyIndex : List Node → Nat → Option (Nat × Node)
  | [], _ => none
  | .elem tg a d v cs :: rest, i =>
      if tg = js "body" then some (i, .elem tg a d v cs) else bodyIndex rest (i + 1)
  | .text _ :: rest, i => bodyIndex rest (i + 1)

/-- Model of `findElementContainingText(text)` of the source: rejects targets
shorter than 3 characters (which also covers the falsy empty string),
otherwise walks the text nodes below `document.body` and returns the
parent element of the first visible, non-script text node containing the
target. -/
def findElementContainingText (doc : Node) (t : JSString) : Option Pos :=
  if t.length < 3 then none
  else
    match doc with
    | .elem _ _ _ _ cs =>
        match bodyIndex cs 0 with
        | some (i, .elem tg _ d v bcs) => ftList t [i] tg d v bcs 0
        | _ => none
    | .text _ => none

/-! ### `createHighlightSpan` and `tryApplyHighlight` (MarkerApplier) -/

/-- Stored note data (the Anchor of the spec), as consumed by the
highlighting path of the source. -/
structure NoteData where
  id : JSString
  text : JSString
  elementPath : JSString
  highlightColor : Option JSString
deriving DecidableEq

/-- Model of `createHighlightSpan(noteId, color)`: a span carrying the class,
the owning note id and the highlight color (default `#FFEB3B`); the
children are the wrapped range contents (`Range.surroundContents`
appends them after creation).  A fresh span's computed style is
`display:inline`, `visibility:visible`. -/
def createHighlightSpan (noteId : JSString) (color : Option JSString)
    (children : List Node) : Node :=
  .elem (js "span")
    [(js "class", js "mozhii-highlight"), (js "data-note-id", noteId),
     (js "--highlight-color", color.getD (js "#FFEB3B"))]
    (js "inline") (js "visible") children

mutual

/-- The walker loop of `tryApplyHighlight` at one node: when a text node's
data contains `t`, replace it by `[before, span(wrapped), after]` — the
effect of `range.setStart/setEnd` on that node followed by
`range.surroundContents(span)` (for a range inside a single text node the
wrap always succeeds).  Returns the replacement sibling list and the
span's position relative to it. -/
def wrapNode (t : JSString) (nid : JSString) (color : Option JSString) :
    Node → Option (List Node × Pos)
  | .text s =>
      match firstIndexOf s t with
      | some i =>
          some ([.text (s.take i),
                 createHighlightSpan nid color [.text ((s.drop i).take t.length)],
                 .text ((s.drop i).drop t.length)], [1])
      | none => none
  | .elem tg a d v cs =>
      (wrapL t nid color cs).map (fun pr => ([.elem tg a d v pr.1], 0 :: pr.2))

/-- Run of `wrapNode` over a sibling list, document order: the first text node
below the list that contains `t` is wrapped. -/
def wrapL (t : JSString) (nid : JSString) (color : Option JSString) :
    List Node → Option (List Node × Pos)
  | [] => none
  | c :: rest =>
      match wrapNode t nid color c with
      | some (ns, q) => some (ns ++ rest, q)
      | none => (wrapL t nid color rest).map (fun pr => (c :: pr.1, bump pr.2))

end

/-- Model of `tryApplyHighlight(element, noteData)` on the document tree: wraps the
first text node below the element at `p` that contains the note's text;
returns the updated document and the span's absolute position.  `none`
covers every `null` return of the source (text split across nodes, text
absent), in all of which the tree is left unchanged. -/
def tryApplyHighlightDoc (doc : Node) (p : Pos) (note : NoteData) :
    Option (Node × Pos) :=
  match subtreeAt doc p with
  | some (.elem tg a d v cs) =>
      match wrapL note.text note.id note.highlightColor cs with
      | some (cs2, q) => some (modifyAt doc p (fun _ => .elem tg a d v cs2), p ++ q)
      | none => none
  | _ => none

/-! ### `removeHighlight` (MarkerApplier.remove) -/

/-- One pass of DOM `Node.normalize()` on a sibling list: drop empty text
nodes and merge runs of adjacent text nodes. -/
def mergeTexts : List Node → List Node
  | [] => []
  | .text s :: rest =>
      match mergeTexts rest with
      | .text s2 :: r => if s ++ s2 = [] then r else .text (s ++ s2) :: r
      | r => if s = [] then r else .text s :: r
  | .elem tg a d v cs :: rest => .elem tg a d v cs :: mergeTexts rest

mutual

/-- DOM `Node.normalize()`: normalize the whole subtree. -/
def normalizeNode : Node → Node
  | .text s => .text s
  | .elem tg a d v cs => .elem tg a d v (mergeTexts (normalizeL cs))

/-- Map of `normalizeNode` over a sibling list. -/
def normalizeL : List Node → List Node
  | [] => []
  | c :: rest => normalizeNode c :: normalizeL rest

end

/-- Replace the `j`-th node of a sibling list by its own children — the
`insertBefore` loop plus `removeChild` of `removeHighlight`. -/
def childSplice : List Node → Nat → List Node
  | [], _ => []
  | c :: rest, 0 =>
      (match c with
       | .elem _ _ _ _ gcs => gcs
       | .text s => [.text s]) ++ rest
  | c :: rest, j + 1 => c :: childSplice rest j

/-- Unwrap child `j` of an element (a text node has no children to move). -/
def spliceNode : Node → Nat → Node
  | .text s, _ => .text s
  | .elem tg a d v cs, j => .elem tg a d v (childSplice cs j)

/-- Split a non-empty position into the parent position and last index. -/
def splitLast : Pos → Option (Pos × Nat)
  | [] => none
  | [j] => some ([], j)
  | j :: r => (splitLast r).map (fun pr => (j :: pr.1, pr.2))

/-- Model of `removeHighlight(noteId)`: locate the first marker carrying the note
id (`querySelector`), replace it in its parent by its children, then
`parent.normalize()`.  No-op when no marker exists.  (A marker at the
document root has no parent element inside the tree; the model leaves the
tree unchanged there, a case never produced by the apply path.) -/
def removeHighlight (noteId : JSString) (doc : Node) : Node :=
  match firstElemWithAttr (js "data-note-id") noteId doc with
  | none => doc
  | some p =>
      match splitLast p with
      | none => doc
      | some (par, j) => modifyAt doc par (fun n => normalizeNode (spliceNode n j))

/-! ### `getElementByXPath` (StructuralPathCodec.decode)

The source delegates to the host's `document.evaluate(xpath, document,
null, XPathResult.FIRST_ORDERED_NODE_TYPE, null)` and returns `null` on
any exception.  The model evaluates the path grammar that `getXPath`
emits — `//*[@id="…"]`, `/html`, `/html/body`, and `tag[k]` steps with
1-based same-tag indices — against the tree, first matching node in
document order; every malformed path yields `none` (the thrown-and-caught
case of the source). -/

/-- Tag of an element node. -/
def tagOf : Node → Option JSString
  | .elem tg _ _ _ _ => some tg
  | .text _ => none

/-- Whether a node is an element with the given tag. -/
def isElemWithTag (n : Node) (tag : JSString) : Bool :=
  match n with
  | .elem tg _ _ _ _ => tg = tag
  | .text _ => false

/-- Split a character list on a separator character (JS `split(sep)` for a
one-character separator, as `String.splitOn` behaves on the paths here). -/
def splitOnChar (c : Char) : JSString → List JSString
  | [] => [[]]
  | a :: rest =>
      if a = c then [] :: splitOnChar c rest
      else
        match splitOnChar c rest with
        | [] => [[a]]
        | g :: gs => (a :: g) :: gs

/-- Drop the last `n` characters. -/
def dropRightN (l : JSString) (n : Nat) : JSString := l.take (l.length - n)

/-- Parse a decimal numeral (used for the `[k]` step predicates). -/
def parseNat : JSString → Option Nat
  | [] => none
  | l => parseNatAux l 0
where
  /-- Accumulator form; fails on any non-digit. -/
  parseNatAux : JSString → Nat → Option Nat
    | [], acc => some acc
    | c :: rest, acc =>
        if c.isDigit then parseNatAux rest (acc * 10 + (c.toNat - 48))
        else none

/-- Parse one XPath step: `body` (no predicate) or `div[3]`. -/
def parseStep (s : JSString) : Option (JSString × Option Nat) :=
  match splitOnChar '[' s with
  | [t] => if t = [] then none else some (t, none)
  | [t, r] =>
      if t ≠ [] ∧ r.getLast? = some ']' then
        (parseNat (dropRightN r 1)).map (fun n => (t, some n))
      else none
  | _ => none

/-- Parse a list of XPath steps; any malformed step fails the path. -/
def parseSteps : List JSString → Option (List (JSString × Option Nat))
  | [] => some []
  | s :: rest => do
      let st ← parseStep s
      let rs ← parseSteps rest
      pure (st :: rs)

/-- Indices of the element children with the given tag, in order,
starting the count at `i`. -/
def childIdxsWithTag : List Node → JSString → Nat → List Nat
  | [], _, _ => []
  | c :: rest, tag, i =>
      if isElemWithTag c tag then i :: childIdxsWithTag rest tag (i + 1)
      else childIdxsWithTag rest tag (i + 1)

/-- Evaluate one step at a context node: the element children with the
step's tag, filtered to the `k`-th (1-based) when a predicate is given. -/
def stepSelect (doc : Node) (p : Pos) (tag : JSString) (k : Option Nat) : List Pos :=
  match subtreeAt doc p with
  | some (.elem _ _ _ _ cs) =>
      let idxs := childIdxsWithTag cs tag 0
      match k with
      | none => idxs.map (fun j => p ++ [j])
      | some 0 => []
      | some (n + 1) =>
          match idxs[n]? with
          | some j => [p ++ [j]]
          | none => []
  | _ => []

/-- Evaluate a step list over a document-ordered node set. -/
def evalSteps (doc : Node) : List Pos → List (JSString × Option Nat) → List Pos
  | ps, [] => ps
  | ps, (tag, k) :: rest =>
      evalSteps doc ((ps.map (fun p => stepSelect doc p tag k)).flatten) rest

/-- Model of `getElementByXPath(xpath)`: first matching node in document order, or
`none` for a non-matching or malformed path (never raises). -/
def getElementByXPath (doc : Node) (xpath : JSString) : Option Pos :=
  if (js "//*[@id=\"").isPrefixOf xpath ∧ (js "\"]").isSuffixOf xpath then
    firstElemWithAttr (js "id") (dropRightN (xpath.drop 9) 2) doc
  else
    match splitOnChar '/' xpath with
    | [] :: h :: steps =>
        if h = js "html" ∧ tagOf doc = some (js "html") then
          match parseSteps steps with
          | some st => (evalSteps doc [[]] st).head?
          | none => none
        else none
    | _ => none

/-! ### `getXPath` (StructuralPathCodec.encode)

`getXPath(element)` walks the parent chain of a live DOM element, so its
model carries an element together with its chain of ancestors.  A context
records whether the element is `document.body`, `document.documentElement`,
detached (`parentNode === null`), or a child of a parent element, with the
`childNodes` siblings before and after it (an element is always a member
of its parent's `childNodes`, so the source's fallthrough `return ''`
after the sibling loop is unreachable).  Tag names are stored in canonical
lower case, so the source's `tagName.toLowerCase()` is the stored name. -/

/-- A sibling as seen in `childNodes`: an element with its tag
(`nodeType === 1`), or any other node kind. -/
inductive SibKind where
  | elemSib (tag : JSString)
  | otherSib
deriving DecidableEq

mutual

/-- A DOM element with its parent chain: tag, `id` attribute (empty for a
falsy absent id), and context. -/
inductive DomElem where
  | mk (tag : JSString) (id : JSString) (ctx : DomCtx)

/-- The parent context of an element. -/
inductive DomCtx where
  | isBody
  | isDocElem
  | detached
  | child (parent : DomElem) (pre : List SibKind) (post : List SibKind)

end

/-- Count of preceding siblings that are elements with the same tag —
the `index` accumulated by the sibling loop of `getXPath`. -/
def sameTagCount (tag : JSString) (pre : List SibKind) : Nat :=
  (pre.filter (fun sk => match sk with
    | .elemSib t => t = tag
    | .otherSib => false)).length

/-- Decimal digits of a Nat (fuel-structured so it kernel-reduces). -/
def natToChars (n : Nat) : JSString :=
  go (n + 1) n
where
  /-- Fuel-bounded decimal rendering. -/
  go : Nat → Nat → JSString
    | 0, _ => []
    | _ + 1, m =>
        if m < 10 then [Char.ofNat (48 + m)]
        else go m (m / 10) ++ [Char.ofNat (48 + m % 10)]

/-- Model of `getXPath(element)`: the id shortcut `//*[@id="…"]` when the element
has an id; `/html/body` for `document.body`; `/html` for
`document.documentElement`; the empty string when there is no parent;
otherwise the parent's path extended with `tag[k]`, `k` the 1-based
same-tag sibling index. -/
def getXPath : DomElem → JSString
  | .mk tag id ctx =>
      if id ≠ [] then js "//*[@id=\"" ++ id ++ js "\"]"
      else
        match ctx with
        | .isBody => js "/html/body"
        | .isDocElem => js "/html"
        | .detached => []
        | .child parent pre _ =>
            getXPath parent ++ js "/" ++ tag ++
              js "[" ++ natToChars (sameTagCount tag pre + 1) ++ js "]"

/-! ### Content-script state: `applyHighlightFromData`, retry scheduler

The scheduler state of the source lives in `window[`retry_${id}`]`
counters and in `setTimeout` registrations; the model passes it
explicitly.  `scheduledRetries` is the log of `setTimeout` registrations
made by `scheduleHighlightRetry`, as `(retry key, delay ms)` pairs. -/

/-- Explicit state of the content script: the document tree, the
`window[retryKey]` counters, and the log of scheduled retry timers. -/
structure CState where
  doc : Node
  retryCounts : List (JSString × Nat)
  scheduledRetries : List (JSString × Nat)

/-- The `maxRetries` bound of `scheduleHighlightRetry`. -/
def maxRetries : Nat := 3

/-- The per-note key `retry_${noteData.id}`. -/
def retryKey (note : NoteData) : JSString := js "retry_" ++ note.id

/-- Read of `window[retryKey] || 0`. -/
def lookupCount : List (JSString × Nat) → JSString → Nat
  | [], _ => 0
  | (k2, v) :: rest, k => if k2 = k then v else lookupCount rest k

/-- Assignment `window[retryKey] = v`. -/
def setAssoc : List (JSString × Nat) → JSString → Nat → List (JSString × Nat)
  | [], k, v => [(k, v)]
  | (k2, v2) :: rest, k, v =>
      if k2 = k then (k, v) :: rest else (k2, v2) :: setAssoc rest k v

/-- Model of `delete window[retryKey]`. -/
def removeAssoc : List (JSString × Nat) → JSString → List (JSString × Nat)
  | [], _ => []
  | (k2, v2) :: rest, k => if k2 = k then rest else (k2, v2) :: removeAssoc rest k

/-- Model of `scheduleHighlightRetry(noteData)`: when the counter is below
`maxRetries`, increment it and register a timer with delay
`1000 * (retryCount + 1)`; otherwise do nothing. -/
def scheduleHighlightRetry (note : NoteData) (s : CState) : CState :=
  let retryCount := lookupCount s.retryCounts (retryKey note)
  if retryCount < maxRetries then
    { s with
        retryCounts := setAssoc s.retryCounts (retryKey note) (retryCount + 1),
        scheduledRetries :=
          s.scheduledRetries ++ [(retryKey note, 1000 * (retryCount + 1))] }
  else s

/-- The `setTimeout` callback of `scheduleHighlightRetry`: search the
document for the note's text; when an element is found, apply the
highlight there and delete the counter; otherwise do nothing. -/
def retryTimerFire (note : NoteData) (s : CState) : CState :=
  match findElementContainingText s.doc note.text with
  | some p =>
      let doc2 :=
        match tryApplyHighlightDoc s.doc p note with
        | some (d, _) => d
        | none => s.doc
      { s with doc := doc2, retryCounts := removeAssoc s.retryCounts (retryKey note) }
  | none => s

/-- The tail call `return tryApplyHighlight(element, noteData)` lifted to
the explicit state. -/
def tryApplyHighlightS (p : Pos) (note : NoteData) (s : CState) :
    Option Pos × CState :=
  match tryApplyHighlightDoc s.doc p note with
  | some (d2, sp) => (some sp, { s with doc := d2 })
  | none => (none, s)

/-- Model of `applyHighlightFromData(noteData)`: return an existing marker if one
carries the note id; otherwise resolve a container by structural path
(Strategy 1) or by whole-document text search (Strategy 2); when neither
yields a container, schedule a retry and return `null` (Strategy 3);
otherwise delegate to `tryApplyHighlight`. -/
def applyHighlightFromData (note : NoteData) (s : CState) : Option Pos × CState :=
  match firstElemWithAttr (js "data-note-id") note.id s.doc with
  | some p => (some p, s)
  | none =>
      let el :=
        match getElementByXPath s.doc note.elementPath with
        | some p => some p
        | none => findElementContainingText s.doc note.text
      match el with
      | none => (none, scheduleHighlightRetry note s)
      | some p => tryApplyHighlightS p note s

/-- Outcome of the settled (post scroll-delay) part of
`restoreNoteContext`: the resolution result, the updated state, and
whether the "Could not locate the exact text." toast was shown. -/
structure RestoreOutcome where
  result : Option Pos
  state : CState
  toastShown : Bool

/-- Model of `restoreNoteContext(noteData)` after the 600 ms settle delay: resolve
and apply via `applyHighlightFromData`; on a `null` result show the
"could not locate" toast (on success the marker is scrolled into view and
pulsed — presentation only). -/
def restoreNoteContextSettled (note : NoteData) (s : CState) : RestoreOutcome :=
  let r := applyHighlightFromData note s
  { result := r.1, state := r.2, toastShown := r.1.isNone }

/-! ### Retry subsystem events (for the retry-bound property)

The per-anchor retry subsystem is driven by: resolution failures that
reach Strategy 3 (each calls `scheduleHighlightRetry`), page mutations
(which replace the document), and the firing of scheduled retry timers. -/

/-- An event of the per-anchor retry subsystem. -/
inductive CEvent where
  | resolveFail
  | mutate (d : Node)
  | timerFire

/-- Step of the retry subsystem. -/
def cstep (note : NoteData) (s : CState) : CEvent → CState
  | .resolveFail => scheduleHighlightRetry note s
  | .mutate d => { s with doc := d }
  | .timerFire => retryTimerFire note s

/-- Number of failed resolution attempts in an event list. -/
def countFails (evs : List CEvent) : Nat :=
  (evs.filter (fun e => match e with
    | CEvent.resolveFail => true
    | _ => false)).length

/-! ### Mutation observer (`setupDynamicContentObserver`)

The observer state of the source lives in the globals `highlightObserver`
and `pendingHighlights` plus `setTimeout` registrations; the model passes
it explicitly.  An attached observer is identified by its attachment
time (event times are strictly increasing in the traces considered), and
`capTimers` holds the pending 30-second auto-disconnect timeouts. -/

/-- The debounced batch pass of the observer callback over the pending
list: markers already present are dropped; otherwise the text search plus
`tryApplyHighlight` runs, and notes that fail stay pending. -/
def batchPass (doc : Node) : List NoteData → Node × List NoteData
  | [] => (doc, [])
  | n :: rest =>
      if (firstElemWithAttr (js "data-note-id") n.id doc).isSome then
        batchPass doc rest
      else
        match findElementContainingText doc n.text with
        | some p =>
            match tryApplyHighlightDoc doc p n with
            | some (d2, _) => batchPass d2 rest
            | none =>
                let pr := batchPass doc rest
                (pr.1, n :: pr.2)
        | none =>
            let pr := batchPass doc rest
            (pr.1, n :: pr.2)

/-- Observer subsystem state: the attached observer (by attachment time),
the pending 30 s cap timers (by fire time), the pending highlight list,
and the document. -/
structure ObsState where
  observer : Option Nat
  capTimers : List Nat
  pending : List NoteData
  doc : Node

/-- An event of the observer subsystem, tagged with its time (ms). -/
inductive ObsEvent where
  | setup (t : Nat)
  | capFire (t : Nat)
  | debounceFire (t : Nat)
  | mutate (t : Nat) (d : Node)

/-- The time of an event. -/
def eventTime : ObsEvent → Nat
  | .setup t => t
  | .capFire t => t
  | .debounceFire t => t
  | .mutate t _ => t

/-- Step of the observer subsystem.
`setup`: `setupDynamicContentObserver` — a no-op while an observer is
attached, otherwise attach and register the 30 s auto-disconnect timeout.
`capFire`: the 30 s timeout — disconnect whatever observer is current.
`debounceFire`: the debounced observer callback — disconnect when the
pending set is empty, otherwise run the batch pass and disconnect when
it empties the pending set.  `mutate`: the page changed. -/
def obsStep (s : ObsState) : ObsEvent → ObsState
  | .setup t =>
      if s.observer.isSome then s
      else { s with observer := some t, capTimers := s.capTimers ++ [t + 30000] }
  | .capFire t =>
      if t ∈ s.capTimers then
        { s with observer := none, capTimers := s.capTimers.erase t }
      else s
  | .debounceFire _ =>
      if s.pending.length = 0 then { s with observer := none }
      else
        let pr := batchPass s.doc s.pending
        { s with doc := pr.1, pending := pr.2,
                 observer := if pr.2.length = 0 then none else s.observer }
  | .mutate _ d => { s with doc := d }

/-- Initial observer state: idle, no timers. -/
def initObs (p0 : List NoteData) (d0 : Node) : ObsState :=
  { observer := none, capTimers := [], pending := p0, doc := d0 }

/-- Run the observer subsystem over an event list. -/
def runObs (p0 : List NoteData) (d0 : Node) (evs : List ObsEvent) : ObsState :=
  evs.foldl obsStep (initObs p0 d0)

/-! ### `applyHighlightToSelection` (the `highlightSaved` command path) -/

/-- A live Range: start and end container positions with offsets. -/
structure SRange where
  startContainer : Pos
  startOffset : Nat
  endContainer : Pos
  endOffset : Nat
deriving DecidableEq

/-- The active selection: host-reported `isCollapsed` plus its ranges
(`rangeCount` is the length). -/
structure Selection where
  isCollapsed : Bool
  ranges : List SRange
deriving DecidableEq

/-- The `selection.rangeCount` accessor. -/
def rangeCount (sel : Selection) : Nat := sel.ranges.length

/-- Replace the `j`-th node of a sibling list by a replacement list. -/
def replaceChildWith : List Node → Nat → List Node → List Node
  | [], _, _ => []
  | _ :: rest, 0, repl => repl ++ rest
  | c :: rest, j + 1, repl => c :: replaceChildWith rest j repl

/-- Model of `Range.surroundContents(span)` for a range whose start and end share
one container: split a text container around the offsets, or wrap the
child slice of an element container. -/
def surroundRange (doc : Node) (r : SRange) (span : List Node → Node) : Node :=
  match subtreeAt doc r.startContainer with
  | some (.text s) =>
      match splitLast r.startContainer with
      | some (par, j) =>
          modifyAt doc par (fun n =>
            match n with
            | .elem tg a d v cs =>
                .elem tg a d v (replaceChildWith cs j
                  [.text (s.take r.startOffset),
                   span [.text ((s.drop r.startOffset).take (r.endOffset - r.startOffset))],
                   .text (s.drop r.endOffset)])
            | .text s2 => .text s2)
      | none => doc
  | some (.elem tg a d v cs) =>
      modifyAt doc r.startContainer (fun _ =>
        .elem tg a d v (cs.take r.startOffset ++
          [span ((cs.drop r.startOffset).take (r.endOffset - r.startOffset))] ++
          cs.drop r.endOffset))
  | none => doc

/-- Model of `applyHighlightToSelection(noteId, color)`: returns the success flag,
the document, and the selection after the call.  No selection, an empty
range list, or a collapsed selection fail immediately; a range whose start
and end containers differ clears the selection and fails; otherwise the
range is wrapped in a highlight span and the selection is cleared. -/
def applyHighlightToSelection (noteId : JSString) (color : Option JSString)
    (sel : Option Selection) (doc : Node) : Bool × Node × Option Selection :=
  match sel with
  | none => (false, doc, none)
  | some s =>
      if rangeCount s = 0 ∨ s.isCollapsed = true then (false, doc, some s)
      else
        match s.ranges with
        | [] => (false, doc, some s)
        | r :: _ =>
            if r.startContainer ≠ r.endContainer then (false, doc, none)
            else
              (true, surroundRange doc r (createHighlightSpan noteId color), none)

/-! ## Lemmas -/

/-- Simultaneous structural induction over nodes and sibling lists. -/
theorem node_mutual_ind {P : Node → Prop} {Q : List Node → Prop}
    (he : ∀ tg a d v cs, Q cs → P (.elem tg a d v cs))
    (ht : ∀ s, P (.text s))
    (hn : Q [])
    (hc : ∀ c rest, P c → Q rest → Q (c :: rest)) :
    (∀ n, P n) ∧ ∀ l, Q l := by
  have hp : ∀ n, P n := fun n => @Node.rec P Q he ht hn hc n
  refine ⟨hp, ?_⟩
  intro l
  induction l with
  | nil => exact hn
  | cons c rest ih => exact hc c rest (hp c) ih

theorem textContentL_append (l1 l2 : List Node) :
    textContentL (l1 ++ l2) = textContentL l1 ++ textContentL l2 := by
  induction l1 with
  | nil => simp [textContentL]
  | cons c rest ih => simp [textContentL, ih]

theorem tc_mergeTexts (cs : List Node) :
    textContentL (mergeTexts cs) = textContentL cs := by
  induction cs using mergeTexts.induct with
  | case1 => rfl
  | case2 s rest s2 r hm hz ih =>
      rw [hm] at ih
      rcases List.append_eq_nil.mp hz with ⟨hs, hs2⟩
      simp only [mergeTexts, hm, if_pos hz]
      simp [textContentL, textContent, hs, hs2, ← ih]
  | case3 s rest s2 r hm hz ih =>
      rw [hm] at ih
      simp only [mergeTexts, hm, if_neg hz]
      simp [textContentL, textContent, ← ih]
  | case4 rest hshape ih =>
      simp only [mergeTexts]
      rcases hm : mergeTexts rest with _ | ⟨hd, tl⟩
      · simp [textContentL, textContent, ← ih, hm]
      · cases hd with
        | text s2 => exact absurd hm (by intro h; exact hshape s2 tl h)
        | elem tg a d v cs2 => simp [textContentL, textContent, ← ih, hm]
  | case5 s rest hs hshape ih =>
      simp only [mergeTexts]
      rcases hm : mergeTexts rest with _ | ⟨hd, tl⟩
      · simp [if_neg hs, textContentL, textContent, ← ih, hm]
      · cases hd with
        | text s2 => exact absurd hm (by intro h; exact hshape s2 tl h)
        | elem tg a d v cs2 => simp [if_neg hs, textContentL, textContent, ← ih, hm]
  | case6 tg a d v cs rest ih => simp [mergeTexts, textContentL, ih]

theorem tc_normalize_both :
    (∀ n, textContent (normalizeNode n) = textContent n) ∧
    ∀ l, textContentL (normalizeL l) = textContentL l := by
  apply node_mutual_ind
  · intro tg a d v cs ih
    simp [normalizeNode, textContent, tc_mergeTexts, ih]
  · intro s; rfl
  · rfl
  · intro c rest ihc ihr
    simp [normalizeL, textContentL, ihc, ihr]

theorem tc_normalizeNode (n : Node) :
    textContent (normalizeNode n) = textContent n := tc_normalize_both.1 n

theorem tc_childSplice (cs : List Node) (j : Nat) :
    textContentL (childSplice cs j) = textContentL cs := by
  induction cs generalizing j with
  | nil => simp [childSplice]
  | cons c rest ih =>
      cases j with
      | zero =>
          cases c with
          | elem tg a d v gcs =>
              simp [childSplice, textContentL_append, textContentL, textContent]
          | text s => simp [childSplice, textContentL]
      | succ j2 => simp [childSplice, textContentL, ih]

theorem tc_spliceNode (n : Node) (j : Nat) :
    textContent (spliceNode n j) = textContent n := by
  cases n with
  | text s => rfl
  | elem tg a d v cs => simp [spliceNode, textContent, tc_childSplice]

theorem tc_modifyAt (f : Node → Node) (hf : ∀ m, textContent (f m) = textContent m) :
    ∀ (p : Pos) (doc : Node), textContent (modifyAt doc p f) = textContent doc := by
  intro p
  induction p with
  | nil => intro doc; simpa [modifyAt] using hf doc
  | cons j r ih =>
      intro doc
      cases doc with
      | text s => simp [modifyAt]
      | elem tg a d v cs =>
          simp only [modifyAt, textContent]
          induction cs generalizing j with
          | nil => simp [modifyAtL]
          | cons c rest ihc =>
              cases j with
              | zero => simp [modifyAtL, textContentL, ih c]
              | succ j2 => simp [modifyAtL, textContentL, ihc j2]

theorem subtreeAt_modifyAt (f : Node → Node) :
    ∀ (p : Pos) (doc m : Node),
      subtreeAt doc p = some m → subtreeAt (modifyAt doc p f) p = some (f m) := by
  intro p
  induction p with
  | nil =>
      intro doc m h
      simp [subtreeAt] at h
      subst h
      simp [modifyAt, subtreeAt]
  | cons j r ih =>
      intro doc m h
      cases doc with
      | text s => simp [subtreeAt] at h
      | elem tg a d v cs =>
          simp only [subtreeAt, modifyAt] at h ⊢
          induction cs generalizing j with
          | nil => simp [subtreeAtL] at h
          | cons c rest ihc =>
              cases j with
              | zero =>
                  simp only [subtreeAtL, modifyAtL] at h ⊢
                  exact ih c m h
              | succ j2 =>
                  simp only [subtreeAtL, modifyAtL] at h ⊢
                  exact ihc j2 h

theorem tcAt_modify (f : Node → Node) (hf : ∀ m, textContent (f m) = textContent m) :
    ∀ (p r : Pos) (doc : Node),
      textContentAt (modifyAt doc (p ++ r) f) p = textContentAt doc p := by
  intro p
  induction p with
  | nil =>
      intro r doc
      simp [textContentAt, subtreeAt, tc_modifyAt f hf r doc]
  | cons j p2 ih =>
      intro r doc
      cases doc with
      | text s => simp [modifyAt, textContentAt, subtreeAt]
      | elem tg a d v cs =>
          simp only [List.cons_append, modifyAt, textContentAt, subtreeAt]
          induction cs generalizing j with
          | nil => simp [modifyAtL, subtreeAtL]
          | cons c rest ihc =>
              cases j with
              | zero =>
                  simp only [modifyAtL, subtreeAtL]
                  simpa [textContentAt] using ih r c
              | succ j2 =>
                  simp only [modifyAtL, subtreeAtL]
                  exact ihc j2

theorem countL_append (k v : JSString) (l1 l2 : List Node) :
    countElemsWithAttrL k v (l1 ++ l2) =
      countElemsWithAttrL k v l1 + countElemsWithAttrL k v l2 := by
  induction l1 with
  | nil => simp [countElemsWithAttrL]
  | cons c rest ih => simp [countElemsWithAttrL, ih]; omega

theorem qs_count_both (k v : JSString) :
    (∀ n, firstElemWithAttr k v n = none ↔ countElemsWithAttr k v n = 0) ∧
    ∀ l, firstElemWithAttrL k v l = none ↔ countElemsWithAttrL k v l = 0 := by
  apply node_mutual_ind
  · intro tg a d v2 cs ih
    by_cases ha : attrLookup a k = some v
    · simp [firstElemWithAttr, countElemsWithAttr, ha]
    · simp [firstElemWithAttr, countElemsWithAttr, ha, ih]
  · intro s
    simp [firstElemWithAttr, countElemsWithAttr]
  · simp [firstElemWithAttrL, countElemsWithAttrL]
  · intro c rest ihc ihr
    cases hq : firstElemWithAttr k v c with
    | some q =>
        have hcnt : countElemsWithAttr k v c ≠ 0 := by
          intro h0
          rw [ihc.mpr h0] at hq
          cases hq
        simp [firstElemWithAttrL, hq, countElemsWithAttrL]
        omega
    | none =>
        simp [firstElemWithAttrL, hq, countElemsWithAttrL, ihc.mp hq,
          Option.map_eq_none', ihr]

theorem qs_none_iff_count_zero (k v : JSString) (n : Node) :
    firstElemWithAttr k v n = none ↔ countElemsWithAttr k v n = 0 :=
  (qs_count_both k v).1 n

theorem qsL_none_iff_count_zero (k v : JSString) (l : List Node) :
    firstElemWithAttrL k v l = none ↔ countElemsWithAttrL k v l = 0 :=
  (qs_count_both k v).2 l

theorem count_modifyAt (k v : JSString) (m2 : Node) :
    ∀ (p : Pos) (doc m : Node), subtreeAt doc p = some m →
      countElemsWithAttr k v (modifyAt doc p (fun _ => m2)) +
          countElemsWithAttr k v m =
        countElemsWithAttr k v doc + countElemsWithAttr k v m2 := by
  intro p
  induction p with
  | nil =>
      intro doc m h
      simp [subtreeAt] at h
      subst h
      simp [modifyAt]
      omega
  | cons j r ih =>
      intro doc m h
      cases doc with
      | text s => simp [subtreeAt] at h
      | elem tg a d v2 cs =>
          simp only [subtreeAt, modifyAt, countElemsWithAttr] at h ⊢
          induction cs generalizing j with
          | nil => simp [subtreeAtL] at h
          | cons c rest ihc =>
              cases j with
              | zero =>
                  simp only [subtreeAtL, modifyAtL] at h
                  simp only [modifyAtL, countElemsWithAttrL]
                  have := ih c m h
                  omega
              | succ j2 =>
                  simp only [subtreeAtL, modifyAtL] at h
                  simp only [modifyAtL, countElemsWithAttrL]
                  have := ihc j2 h
                  omega

theorem count_subtree_le (k v : JSString) :
    ∀ (p : Pos) (doc m : Node), subtreeAt doc p = some m →
      countElemsWithAttr k v m ≤ countElemsWithAttr k v doc := by
  intro p
  induction p with
  | nil =>
      intro doc m h
      simp [subtreeAt] at h
      subst h
      exact le_refl _
  | cons j r ih =>
      intro doc m h
      cases doc with
      | text s => simp [subtreeAt] at h
      | elem tg a d v2 cs =>
          simp only [subtreeAt, countElemsWithAttr] at h ⊢
          induction cs generalizing j with
          | nil => simp [subtreeAtL] at h
          | cons c rest ihc =>
              cases j with
              | zero =>
                  simp only [subtreeAtL] at h
                  have := ih c m h
                  simp only [countElemsWithAttrL]
                  omega
              | succ j2 =>
                  simp only [subtreeAtL] at h
                  have := ihc j2 h
                  simp only [countElemsWithAttrL]
                  omega

theorem attrLookup_span_attrs (nid c : JSString) :
    attrLookup [(js "class", js "mozhii-highlight"), (js "data-note-id", nid),
      (js "--highlight-color", c)] (js "data-note-id") = some nid := by
  have h1 : js "class" ≠ js "data-note-id" := by decide
  simp [attrLookup, h1]

theorem qsL_append_left (k v : JSString) :
    ∀ (l1 l2 : List Node) (q : Pos), firstElemWithAttrL k v l1 = some q →
      firstElemWithAttrL k v (l1 ++ l2) = some q := by
  intro l1
  induction l1 with
  | nil => intro l2 q h; simp [firstElemWithAttrL] at h
  | cons c rest ih =>
      intro l2 q h
      cases hq : firstElemWithAttr k v c with
      | some q0 =>
          simp [firstElemWithAttrL, hq] at h ⊢
          exact h
      | none =>
          simp only [firstElemWithAttrL, hq, List.cons_append] at h ⊢
          cases hr : firstElemWithAttrL k v rest with
          | none => rw [hr] at h; cases h
          | some q1 =>
              rw [hr] at h
              simp at h
              show Option.map bump (firstElemWithAttrL k v (rest ++ l2)) = some q
              rw [ih l2 q1 hr]
              simp [← h]

theorem bump_ne_nil (q : Pos) (h : q ≠ []) : bump q ≠ [] := by
  cases q with
  | nil => exact absurd rfl h
  | cons j r => simp [bump]

/-- Joint properties of the wrap of `tryApplyHighlight`: the replacement
list preserves text content, adds exactly one marker carrying the note
id, and — when no marker with that id was present — the new marker is the
first one, at the returned position. -/
theorem wrap_props (t nid : JSString) (color : Option JSString) :
    (∀ n, ∀ ns q, wrapNode t nid color n = some (ns, q) →
        textContentL ns = textContent n ∧
        countElemsWithAttrL (js "data-note-id") nid ns =
          countElemsWithAttr (js "data-note-id") nid n + 1 ∧
        q ≠ [] ∧
        (countElemsWithAttr (js "data-note-id") nid n = 0 →
          firstElemWithAttrL (js "data-note-id") nid ns = some q)) ∧
    ∀ l, ∀ ns q, wrapL t nid color l = some (ns, q) →
        textContentL ns = textContentL l ∧
        countElemsWithAttrL (js "data-note-id") nid ns =
          countElemsWithAttrL (js "data-note-id") nid l + 1 ∧
        q ≠ [] ∧
        (countElemsWithAttrL (js "data-note-id") nid l = 0 →
          firstElemWithAttrL (js "data-note-id") nid ns = some q) := by
  apply node_mutual_ind
  · -- element node
    intro tg a d v cs ih ns q h
    cases hw : wrapL t nid color cs with
    | none => rw [wrapNode, hw] at h; cases h
    | some pr =>
        rw [wrapNode, hw] at h
        simp only [Option.map_some'] at h
        cases h
        obtain ⟨htc, hcnt, hq, hqs⟩ := ih pr.1 pr.2 hw
        refine ⟨?_, ?_, by simp, ?_⟩
        · simp [textContentL, textContent, htc]
        · simp only [countElemsWithAttrL, countElemsWithAttr]
          omega
        · intro h0
          simp only [countElemsWithAttr] at h0
          have ha : ¬ attrLookup a (js "data-note-id") = some nid := by
            intro hx
            rw [hx] at h0
            simp at h0
          have hcs : countElemsWithAttrL (js "data-note-id") nid cs = 0 := by
            by_cases hx : attrLookup a (js "data-note-id") = some nid
            · exact absurd hx ha
            · rw [if_neg hx] at h0; omega
          simp only [firstElemWithAttrL, firstElemWithAttr, if_neg ha, hqs hcs]
  · -- text node
    intro s ns q h
    cases hfi : firstIndexOf s t with
    | none => rw [wrapNode, hfi] at h; cases h
    | some i =>
        rw [wrapNode, hfi] at h
        cases h
        refine ⟨?_, ?_, by simp, ?_⟩
        · simp [textContentL, textContent, createHighlightSpan, List.take_append_drop]
        · simp [countElemsWithAttrL, countElemsWithAttr, createHighlightSpan,
            attrLookup_span_attrs]
        · intro _
          simp [firstElemWithAttrL, firstElemWithAttr, createHighlightSpan,
            attrLookup_span_attrs, bump]
  · -- empty list
    intro ns q h
    rw [wrapL] at h
    cases h
  · -- cons
    intro c rest ihc ihr ns q h
    cases hw : wrapNode t nid color c with
    | some pr =>
        rw [wrapL, hw] at h
        cases h
        obtain ⟨htc, hcnt, hq, hqs⟩ := ihc pr.1 pr.2 (by rw [hw])
        refine ⟨?_, ?_, hq, ?_⟩
        · simp [textContentL_append, textContentL, htc]
        · simp only [countL_append, countElemsWithAttrL]
          omega
        · intro h0
          simp only [countElemsWithAttrL] at h0
          have hc0 : countElemsWithAttr (js "data-note-id") nid c = 0 := by omega
          exact qsL_append_left _ _ _ _ _ (hqs hc0)
    | none =>
        rw [wrapL, hw] at h
        cases hw2 : wrapL t nid color rest with
        | none => rw [hw2] at h; cases h
        | some pr =>
            rw [hw2] at h
            simp only [Option.map_some'] at h
            cases h
            obtain ⟨htc, hcnt, hq, hqs⟩ := ihr pr.1 pr.2 hw2
            refine ⟨?_, ?_, bump_ne_nil pr.2 hq, ?_⟩
            · simp [textContentL, htc]
            · simp only [countElemsWithAttrL]
              omega
            · intro h0
              simp only [countElemsWithAttrL] at h0
              have hc0 : countElemsWithAttr (js "data-note-id") nid c = 0 := by omega
              have hrest : countElemsWithAttrL (js "data-note-id") nid rest = 0 := by omega
              have hqc : firstElemWithAttr (js "data-note-id") nid c = none :=
                (qs_none_iff_count_zero _ _ c).mpr hc0
              simp [firstElemWithAttrL, hqc, hqs hrest]

/-- Replacing the marker-free subtree at `p` of a marker-free document by
a subtree whose first marker sits at `q` puts the document's first marker
at `p ++ q`. -/
theorem qs_modify (k v : JSString) (m2 : Node) (q : Pos)
    (hq2 : firstElemWithAttr k v m2 = some q) :
    ∀ (p : Pos) (doc : Node), countElemsWithAttr k v doc = 0 →
      (subtreeAt doc p).isSome = true →
      firstElemWithAttr k v (modifyAt doc p (fun _ => m2)) = some (p ++ q) := by
  intro p
  induction p with
  | nil =>
      intro doc h0 hs
      simpa [modifyAt] using hq2
  | cons j r ih =>
      intro doc h0 hs
      cases doc with
      | text s => simp [subtreeAt] at hs
      | elem tg a d v2 cs =>
          simp only [countElemsWithAttr] at h0
          have ha : ¬ attrLookup a k = some v := by
            intro hx
            rw [hx] at h0
            simp at h0
          have hcs : countElemsWithAttrL k v cs = 0 := by
            rw [if_neg ha] at h0
            omega
          simp only [subtreeAt] at hs
          simp only [modifyAt, firstElemWithAttr, if_neg ha]
          clear h0
          induction cs generalizing j with
          | nil => simp [subtreeAtL] at hs
          | cons c rest ihc =>
              cases j with
              | zero =>
                  simp only [subtreeAtL] at hs
                  have hcc : countElemsWithAttr k v c = 0 := by
                    simp only [countElemsWithAttrL] at hcs
                    omega
                  simp only [modifyAtL, firstElemWithAttrL]
                  rw [ih c hcc hs]
                  simp
              | succ j2 =>
                  simp only [subtreeAtL] at hs
                  have hcc : countElemsWithAttr k v c = 0 := by
                    simp only [countElemsWithAttrL] at hcs
                    omega
                  have hrest : countElemsWithAttrL k v rest = 0 := by
                    simp only [countElemsWithAttrL] at hcs
                    omega
                  simp only [modifyAtL, firstElemWithAttrL,
                    (qs_none_iff_count_zero k v c).mpr hcc]
                  rw [ihc j2 hs hrest]
                  simp [bump]

theorem splitLast_append (l : Pos) (j : Nat) : splitLast (l ++ [j]) = some (l, j) := by
  induction l with
  | nil => rfl
  | cons a rest ih =>
      cases rest with
      | nil => simp [splitLast]
      | cons b rest2 =>
          simp only [List.cons_append] at ih ⊢
          simp [splitLast, ih]

theorem removeHighlight_noop (nid : JSString) (doc : Node)
    (h : countElemsWithAttr (js "data-note-id") nid doc = 0) :
    removeHighlight nid doc = doc := by
  rw [removeHighlight, (qs_none_iff_count_zero _ _ doc).mpr h]

theorem scheduleHighlightRetry_doc (note : NoteData) (s : CState) :
    (scheduleHighlightRetry note s).doc = s.doc := by
  rw [scheduleHighlightRetry]
  split <;> rfl

/-- Core properties of a successful `tryApplyHighlight`: exactly one new
marker carrying the note id, container text content unchanged, and — when
the document had no marker with that id — the new marker is the first in
the document, strictly below the container. -/
theorem tryApplyDoc_props (note : NoteData) (doc : Node) (p : Pos)
    (d2 : Node) (sp : Pos)
    (h : tryApplyHighlightDoc doc p note = some (d2, sp)) :
    countElemsWithAttr (js "data-note-id") note.id d2 =
      countElemsWithAttr (js "data-note-id") note.id doc + 1 ∧
    textContentAt d2 p = textContentAt doc p ∧
    (countElemsWithAttr (js "data-note-id") note.id doc = 0 →
      firstElemWithAttr (js "data-note-id") note.id d2 = some sp ∧
      ∃ q, sp = p ++ q ∧ q ≠ []) := by
  rw [tryApplyHighlightDoc] at h
  cases hsub : subtreeAt doc p with
  | none => rw [hsub] at h; cases h
  | some m =>
      rw [hsub] at h
      cases m with
      | text s => cases h
      | elem tg a d v cs =>
          have h2 : (match wrapL note.text note.id note.highlightColor cs with
              | some (cs2, q) =>
                  some (modifyAt doc p (fun _ => Node.elem tg a d v cs2), p ++ q)
              | none => none) = some (d2, sp) := h
          clear h
          cases hw : wrapL note.text note.id note.highlightColor cs with
          | none => rw [hw] at h2; cases h2
          | some pr =>
              rw [hw] at h2
              obtain ⟨cs2, q⟩ := pr
              cases h2
              obtain ⟨htc, hcnt, hqn, hqs⟩ :=
                (wrap_props note.text note.id note.highlightColor).2 cs cs2 q hw
              refine ⟨?_, ?_, ?_⟩
              · have hadd := count_modifyAt (js "data-note-id") note.id
                  (.elem tg a d v cs2) p doc (.elem tg a d v cs) hsub
                simp only [countElemsWithAttr] at hadd ⊢
                omega
              · have hself := subtreeAt_modifyAt
                  (fun _ => Node.elem tg a d v cs2) p doc (.elem tg a d v cs) hsub
                simp [textContentAt, hself, hsub, textContent, htc]
              · intro h0
                have hm0 : countElemsWithAttr (js "data-note-id") note.id
                    (Node.elem tg a d v cs) = 0 := by
                  have := count_subtree_le (js "data-note-id") note.id p doc _ hsub
                  omega
                have ha : ¬ attrLookup a (js "data-note-id") = some note.id := by
                  intro hx
                  simp only [countElemsWithAttr, hx] at hm0
                  simp at hm0
                have hcs0 : countElemsWithAttrL (js "data-note-id") note.id cs = 0 := by
                  simp only [countElemsWithAttr, if_neg ha] at hm0
                  omega
                have hqsm2 : firstElemWithAttr (js "data-note-id") note.id
                    (Node.elem tg a d v cs2) = some q := by
                  simp only [firstElemWithAttr, if_neg ha]
                  exact hqs hcs0
                refine ⟨?_, q, rfl, hqn⟩
                exact qs_modify (js "data-note-id") note.id _ q hqsm2 p doc h0
                  (by simp [hsub])

/-- Resolution branch: a marker with the note id already exists. -/
theorem apply_eq_existing (note : NoteData) (s : CState) (p : Pos)
    (h : firstElemWithAttr (js "data-note-id") note.id s.doc = some p) :
    applyHighlightFromData note s = (some p, s) := by
  rw [applyHighlightFromData, h]

/-- Resolution branch: no marker, the structural path decodes. -/
theorem apply_eq_path (note : NoteData) (s : CState) (p : Pos)
    (h0 : firstElemWithAttr (js "data-note-id") note.id s.doc = none)
    (h1 : getElementByXPath s.doc note.elementPath = some p) :
    applyHighlightFromData note s = tryApplyHighlightS p note s := by
  rw [applyHighlightFromData, h0, h1]

/-- Resolution branch: no marker, the path fails, the text search hits. -/
theorem apply_eq_text (note : NoteData) (s : CState) (p : Pos)
    (h0 : firstElemWithAttr (js "data-note-id") note.id s.doc = none)
    (h1 : getElementByXPath s.doc note.elementPath = none)
    (h2 : findElementContainingText s.doc note.text = some p) :
    applyHighlightFromData note s = tryApplyHighlightS p note s := by
  rw [applyHighlightFromData, h0, h1, h2]

/-- Resolution branch: no marker and no container — schedule a retry. -/
theorem apply_eq_sched (note : NoteData) (s : CState)
    (h0 : firstElemWithAttr (js "data-note-id") note.id s.doc = none)
    (h1 : getElementByXPath s.doc note.elementPath = none)
    (h2 : findElementContainingText s.doc note.text = none) :
    applyHighlightFromData note s = (none, scheduleHighlightRetry note s) := by
  rw [applyHighlightFromData, h0, h1, h2]

theorem tryApplyS_count (note : NoteData) (s : CState) (p : Pos)
    (h0 : countElemsWithAttr (js "data-note-id") note.id s.doc = 0) :
    countElemsWithAttr (js "data-note-id") note.id
      ((tryApplyHighlightS p note s).2).doc ≤ 1 := by
  rw [tryApplyHighlightS]
  cases ht : tryApplyHighlightDoc s.doc p note with
  | none =>
      show countElemsWithAttr (js "data-note-id") note.id s.doc ≤ 1
      omega
  | some pr =>
      obtain ⟨d2, sp⟩ := pr
      have hcnt := (tryApplyDoc_props note s.doc p d2 sp ht).1
      show countElemsWithAttr (js "data-note-id") note.id d2 ≤ 1
      omega

/-- One resolution pass never leaves more than one marker with the id
(given the uniqueness invariant beforehand). -/
theorem apply_count_le (note : NoteData) (s : CState)
    (h : countElemsWithAttr (js "data-note-id") note.id s.doc ≤ 1) :
    countElemsWithAttr (js "data-note-id") note.id
      ((applyHighlightFromData note s).2).doc ≤ 1 := by
  cases hqs : firstElemWithAttr (js "data-note-id") note.id s.doc with
  | some p => rw [apply_eq_existing note s p hqs]; exact h
  | none =>
      have h0 := (qs_none_iff_count_zero (js "data-note-id") note.id s.doc).mp hqs
      cases hgx : getElementByXPath s.doc note.elementPath with
      | some p =>
          rw [apply_eq_path note s p hqs hgx]
          exact tryApplyS_count note s p h0
      | none =>
          cases hfd : findElementContainingText s.doc note.text with
          | some p =>
              rw [apply_eq_text note s p hqs hgx hfd]
              exact tryApplyS_count note s p h0
          | none =>
              rw [apply_eq_sched note s hqs hgx hfd]
              show countElemsWithAttr (js "data-note-id") note.id
                (scheduleHighlightRetry note s).doc ≤ 1
              rw [scheduleHighlightRetry_doc]
              omega

theorem second_tryApply (note : NoteData) (s : CState) (pel p : Pos) (s2 : CState)
    (h0 : countElemsWithAttr (js "data-note-id") note.id s.doc = 0)
    (h : tryApplyHighlightS pel note s = (some p, s2)) :
    applyHighlightFromData note s2 = (some p, s2) := by
  rw [tryApplyHighlightS] at h
  cases ht : tryApplyHighlightDoc s.doc pel note with
  | none =>
      rw [ht] at h
      have h2 : ((none : Option Pos), s) = (some p, s2) := h
      simp at h2
  | some pr =>
      obtain ⟨d2, sp⟩ := pr
      rw [ht] at h
      have h2 : ((some sp : Option Pos), { s with doc := d2 }) = (some p, s2) := h
      clear h
      have hsp : sp = p := by simpa using congrArg Prod.fst h2
      have hs2 : s2 = { s with doc := d2 } := by
        simpa using (congrArg Prod.snd h2).symm
      have hqs2 := ((tryApplyDoc_props note s.doc pel d2 sp ht).2.2 h0).1
      rw [hs2, ← hsp]
      exact apply_eq_existing note { s with doc := d2 } sp hqs2

/-- A successful resolution pass leaves the tree in a state where the
same resolution returns the same marker without further change. -/
theorem apply_second (note : NoteData) (s : CState) (p : Pos) (s2 : CState)
    (h : applyHighlightFromData note s = (some p, s2)) :
    applyHighlightFromData note s2 = (some p, s2) := by
  cases hqs : firstElemWithAttr (js "data-note-id") note.id s.doc with
  | some p0 =>
      rw [apply_eq_existing note s p0 hqs] at h
      have hp : p0 = p := by simpa using congrArg Prod.fst h
      have hs2 : s2 = s := by simpa using (congrArg Prod.snd h).symm
      rw [hs2, ← hp]
      exact apply_eq_existing note s p0 hqs
  | none =>
      have h0 := (qs_none_iff_count_zero (js "data-note-id") note.id s.doc).mp hqs
      cases hgx : getElementByXPath s.doc note.elementPath with
      | some pel =>
          rw [apply_eq_path note s pel hqs hgx] at h
          exact second_tryApply note s pel p s2 h0 h
      | none =>
          cases hfd : findElementContainingText s.doc note.text with
          | some pel =>
              rw [apply_eq_text note s pel hqs hgx hfd] at h
              exact second_tryApply note s pel p s2 h0 h
          | none =>
              rw [apply_eq_sched note s hqs hgx hfd] at h
              simp at h

theorem lookupCount_setAssoc (l : List (JSString × Nat)) (k : JSString) (v : Nat) :
    lookupCount (setAssoc l k v) k = v := by
  induction l with
  | nil => simp [setAssoc, lookupCount]
  | cons kv rest ih =>
      obtain ⟨k2, v2⟩ := kv
      by_cases hk : k2 = k
      · simp [setAssoc, hk, lookupCount]
      · simp [setAssoc, hk, lookupCount, ih]

/-- Invariant of the per-anchor retry subsystem under never-locatable
text: the counter tracks `min`(failures so far)`3` and the log of
scheduled timers is exactly the linear-backoff sequence. -/
theorem c2_aux (note : NoteData) :
    ∀ (evs : List CEvent) (s : CState) (k : Nat),
      findElementContainingText s.doc note.text = none →
      (∀ d, CEvent.mutate d ∈ evs → findElementContainingText d note.text = none) →
      lookupCount s.retryCounts (retryKey note) = min k 3 →
      s.scheduledRetries =
        (List.range (min k 3)).map (fun i => (retryKey note, 1000 * (i + 1))) →
      lookupCount ((evs.foldl (cstep note) s).retryCounts) (retryKey note) =
          min (k + countFails evs) 3 ∧
      (evs.foldl (cstep note) s).scheduledRetries =
        (List.range (min (k + countFails evs) 3)).map
          (fun i => (retryKey note, 1000 * (i + 1))) := by
  intro evs
  induction evs with
  | nil =>
      intro s k h1 h2 h3 h4
      simpa [countFails] using And.intro h3 h4
  | cons e rest ih =>
      intro s k h1 h2 h3 h4
      have h2r : ∀ d, CEvent.mutate d ∈ rest →
          findElementContainingText d note.text = none :=
        fun d hd => h2 d (List.mem_cons_of_mem _ hd)
      cases e with
      | resolveFail =>
          have hcf : countFails (CEvent.resolveFail :: rest) = countFails rest + 1 := by
            simp [countFails]
          by_cases hk : k < 3
          · have hmin : min k 3 = k := by omega
            have hstep : cstep note s CEvent.resolveFail =
                { s with
                    retryCounts := setAssoc s.retryCounts (retryKey note) (k + 1),
                    scheduledRetries := s.scheduledRetries ++
                      [(retryKey note, 1000 * (k + 1))] } := by
              show scheduleHighlightRetry note s = _
              simp [scheduleHighlightRetry, h3, hmin, maxRetries, hk]
            rw [List.foldl_cons, hstep]
            have hmin2 : min (k + 1) 3 = k + 1 := by omega
            have hthis := ih
              { s with
                  retryCounts := setAssoc s.retryCounts (retryKey note) (k + 1),
                  scheduledRetries := s.scheduledRetries ++
                    [(retryKey note, 1000 * (k + 1))] }
              (k + 1) h1 h2r
              (by simpa [hmin2] using lookupCount_setAssoc s.retryCounts (retryKey note) (k + 1))
              (by
                rw [hmin2, List.range_succ, List.map_append]
                show s.scheduledRetries ++ [(retryKey note, 1000 * (k + 1))] = _
                rw [h4, hmin]
                rfl)
            rw [hcf]
            have harith : k + 1 + countFails rest = k + (countFails rest + 1) := by omega
            rw [← harith]
            exact hthis
          · have hmin : min k 3 = 3 := by omega
            have hstep : cstep note s CEvent.resolveFail = s := by
              show scheduleHighlightRetry note s = _
              simp [scheduleHighlightRetry, h3, hmin, maxRetries]
            rw [List.foldl_cons, hstep, hcf]
            have hthis := ih s k h1 h2r h3 h4
            have he1 : min (k + (countFails rest + 1)) 3 = min (k + countFails rest) 3 := by
              omega
            rw [he1]
            exact hthis
      | mutate d =>
          have hd : findElementContainingText d note.text = none :=
            h2 d (List.mem_cons_self _ _)
          have hcf : countFails (CEvent.mutate d :: rest) = countFails rest := by
            simp [countFails]
          rw [List.foldl_cons, hcf]
          exact ih { s with doc := d } k hd h2r h3 h4
      | timerFire =>
          have hstep : cstep note s CEvent.timerFire = s := by
            show retryTimerFire note s = s
            rw [retryTimerFire, h1]
          have hcf : countFails (CEvent.timerFire :: rest) = countFails rest := by
            simp [countFails]
          rw [List.foldl_cons, hstep, hcf]
          exact ih s k h1 h2r h3 h4

/-! ## Concrete fixtures -/

/-- A small document: `<html><head style="display:none"></head><body>
<p>say hello world now</p><div>abc</div></body></html>`. -/
def sampleDoc : Node :=
  .elem (js "html") [] (js "block") (js "visible")
    [.elem (js "head") [] (js "none") (js "visible") [],
     .elem (js "body") [] (js "block") (js "visible")
       [.elem (js "p") [] (js "block") (js "visible") [.text (js "say hello world now")],
        .elem (js "div") [] (js "block") (js "visible") [.text (js "abc")]]]

/-- Fresh content-script state over `sampleDoc`. -/
def sampleState : CState :=
  { doc := sampleDoc, retryCounts := [], scheduledRetries := [] }

/-- Anchor whose structural path points to a removed node (`div[3]`)
while its text exists verbatim in the tree. -/
def c1note : NoteData :=
  { id := js "n1", text := js "hello world",
    elementPath := js "/html/body/div[3]", highlightColor := none }

/-- Anchor resolved by text search only (empty path). -/
def c3note : NoteData :=
  { id := js "n1", text := js "hello", elementPath := js "", highlightColor := none }

/-- Malformed anchor: empty text, empty path. -/
def c5note : NoteData :=
  { id := js "n0", text := [], elementPath := [], highlightColor := none }

/-- Anchor whose path is dead and whose text is absent from the page. -/
def c6note : NoteData :=
  { id := js "n2", text := js "unfindable text",
    elementPath := js "/html/body/div[9]", highlightColor := none }

/-- Anchor with a 2-character text and a dead path. -/
def c7note : NoteData :=
  { id := js "n7", text := js "ab", elementPath := js "", highlightColor := none }

/-- The document produced by applying `c3note` at the `<p>` element. -/
def c4applied : Node × Pos :=
  (tryApplyHighlightDoc sampleDoc [1, 0] c3note).getD (sampleDoc, [])

/-- A detached element that carries a unique identifier. -/
def c9elem : DomElem := .mk (js "div") (js "x") DomCtx.detached

/-- A non-collapsed selection whose range crosses two containers. -/
def c10sel : Selection :=
  { isCollapsed := false,
    ranges := [{ startContainer := [0], startOffset := 0,
                 endContainer := [1], endOffset := 1 }] }

/-! ## Claims -/

/-- C1: resolution precedence of `applyHighlightFromData` — an existing
marker with the anchor's identifier is returned first; otherwise the
decoded structural path provides the container when decoding succeeds;
the whole-document text search is consulted only when path decoding
yields no node; and when neither yields a container, resolution fails
(`null`) and the anchor is handed to the retry scheduler. -/
theorem c1_resolution_precedence (note : NoteData) (s : CState) :
    (∀ p, firstElemWithAttr (js "data-note-id") note.id s.doc = some p →
        applyHighlightFromData note s = (some p, s)) ∧
    (firstElemWithAttr (js "data-note-id") note.id s.doc = none →
      ∀ p, getElementByXPath s.doc note.elementPath = some p →
        applyHighlightFromData note s = tryApplyHighlightS p note s) ∧
    (firstElemWithAttr (js "data-note-id") note.id s.doc = none →
      getElementByXPath s.doc note.elementPath = none →
      ∀ p, findElementContainingText s.doc note.text = some p →
        applyHighlightFromData note s = tryApplyHighlightS p note s) ∧
    (firstElemWithAttr (js "data-note-id") note.id s.doc = none →
      getElementByXPath s.doc note.elementPath = none →
      findElementContainingText s.doc note.text = none →
      applyHighlightFromData note s = (none, scheduleHighlightRetry note s)) :=
  ⟨fun p h => apply_eq_existing note s p h,
   fun h0 p h1 => apply_eq_path note s p h0 h1,
   fun h0 h1 p h2 => apply_eq_text note s p h0 h1 h2,
   fun h0 h1 h2 => apply_eq_sched note s h0 h1 h2⟩

/-- C1 witness: the spec scenario — a structural path pointing at a
removed node (`div[3]`) with the text `"hello world"` present elsewhere
resolves via the text-search fallback and the highlight is applied. -/
theorem c1_resolution_precedence_witness :
    firstElemWithAttr (js "data-note-id") (js "n1") sampleDoc = none ∧
    getElementByXPath sampleDoc (js "/html/body/div[3]") = none ∧
    findElementContainingText sampleDoc (js "hello world") = some [1, 0] ∧
    applyHighlightFromData c1note sampleState =
      tryApplyHighlightS [1, 0] c1note sampleState ∧
    (applyHighlightFromData c1note sampleState).1 = some [1, 0, 1] := by
  refine ⟨rfl, rfl, rfl, ?_, rfl⟩
  exact (c1_resolution_precedence c1note sampleState).2.2.1 rfl rfl [1, 0] rfl

/-- C3: marker idempotence and uniqueness — starting from a tree with at
most one marker carrying the identifier, two invocations of the
marker-apply path leave at most one marker carrying it; and whenever an
invocation succeeds, invoking it again returns the same marker with the
state unchanged. -/
theorem c3_marker_idempotence (note : NoteData) (s : CState) :
    (countElemsWithAttr (js "data-note-id") note.id s.doc ≤ 1 →
      countElemsWithAttr (js "data-note-id") note.id
        ((applyHighlightFromData note
            (applyHighlightFromData note s).2).2).doc ≤ 1) ∧
    ∀ p s2, applyHighlightFromData note s = (some p, s2) →
      applyHighlightFromData note s2 = (some p, s2) := by
  constructor
  · intro h
    exact apply_count_le note _ (apply_count_le note s h)
  · intro p s2 h
    exact apply_second note s p s2 h

/-- C3 witness: on the sample page the first call inserts one marker and
the second call returns it unchanged. -/
theorem c3_marker_idempotence_witness :
    countElemsWithAttr (js "data-note-id") (js "n1") sampleDoc ≤ 1 ∧
    countElemsWithAttr (js "data-note-id") (js "n1")
      ((applyHighlightFromData c3note
          (applyHighlightFromData c3note sampleState).2).2).doc ≤ 1 ∧
    applyHighlightFromData c3note
        (applyHighlightFromData c3note sampleState).2 =
      (some [1, 0, 1], (applyHighlightFromData c3note sampleState).2) := by
  refine ⟨by decide, (c3_marker_idempotence c3note sampleState).1 (by decide), ?_⟩
  exact (c3_marker_idempotence c3note sampleState).2 [1, 0, 1]
    (applyHighlightFromData c3note sampleState).2 rfl

/-- C4: apply/remove round-trip — for every container and range
successfully wrapped by `tryApplyHighlight` on a tree with no marker for
the identifier, `removeHighlight` with the same identifier restores the
container's text content (content equality); and `removeHighlight` is a
no-op when no marker with the identifier exists. -/
theorem c4_apply_remove_roundtrip :
    (∀ (doc : Node) (p : Pos) (note : NoteData) (d2 : Node) (sp : Pos),
        countElemsWithAttr (js "data-note-id") note.id doc = 0 →
        tryApplyHighlightDoc doc p note = some (d2, sp) →
        textContentAt (removeHighlight note.id d2) p = textContentAt doc p ∧
        textContentAt d2 p = textContentAt doc p) ∧
    ∀ (nid : JSString) (doc : Node),
      countElemsWithAttr (js "data-note-id") nid doc = 0 →
      removeHighlight nid doc = doc := by
  constructor
  · intro doc p note d2 sp h0 h
    obtain ⟨hcnt, htcAt, hrest⟩ := tryApplyDoc_props note doc p d2 sp h
    obtain ⟨hqs2, q, hspq, hq⟩ := hrest h0
    refine ⟨?_, htcAt⟩
    subst hspq
    rw [removeHighlight, hqs2]
    have hsplit : splitLast (p ++ q) = some (p ++ q.dropLast, q.getLast hq) := by
      conv_lhs => rw [← List.dropLast_append_getLast hq]
      rw [← List.append_assoc]
      exact splitLast_append _ _
    show textContentAt
        (match splitLast (p ++ q) with
         | none => d2
         | some (par, j) => modifyAt d2 par fun n => normalizeNode (spliceNode n j)) p =
      textContentAt doc p
    rw [hsplit]
    have hf : ∀ m, textContent (normalizeNode (spliceNode m (q.getLast hq))) =
        textContent m := by
      intro m
      rw [tc_normalizeNode, tc_spliceNode]
    show textContentAt (modifyAt d2 (p ++ q.dropLast)
      (fun n => normalizeNode (spliceNode n (q.getLast hq)))) p = textContentAt doc p
    rw [tcAt_modify _ hf p q.dropLast d2]
    exact htcAt
  · intro nid doc h
    exact removeHighlight_noop nid doc h

/-- C4 witness: wrapping `"hello"` inside the sample `<p>` and removing
the marker restores the paragraph's text content; removal on the
marker-free document is a no-op. -/
theorem c4_apply_remove_roundtrip_witness :
    countElemsWithAttr (js "data-note-id") (js "n1") sampleDoc = 0 ∧
    tryApplyHighlightDoc sampleDoc [1, 0] c3note = some (c4applied.1, [1, 0, 1]) ∧
    textContentAt (removeHighlight (js "n1") c4applied.1) [1, 0] =
      textContentAt sampleDoc [1, 0] ∧
    removeHighlight (js "n1") sampleDoc = sampleDoc := by
  refine ⟨by decide, rfl, ?_, ?_⟩
  · exact (c4_apply_remove_roundtrip.1 sampleDoc [1, 0] c3note c4applied.1 [1, 0, 1]
      (by decide) rfl).1
  · exact c4_apply_remove_roundtrip.2 (js "n1") sampleDoc (by decide)

/-- C5 counterexample: an anchor with empty text is *not* rejected at the
resolution entry point — after both lookups fail it is entered into the
retry schedule (counter set to 1, a 1000 ms timer registered), refuting
"never entered into the retry schedule". -/
theorem c5_counterexample :
    c5note.text = [] ∧
    (applyHighlightFromData c5note sampleState).2.scheduledRetries =
      [(js "retry_n0", 1000)] ∧
    (applyHighlightFromData c5note sampleState).2.retryCounts =
      [(js "retry_n0", 1)] := ⟨rfl, rfl, rfl⟩

/-- C5 (amended): for every anchor whose text is empty, the
whole-document text search immediately returns not-found (so empty text
never resolves via the text path), but the resolution entry point
performs no rejection: when no marker exists and the structural path does
not decode, the anchor is entered into the retry schedule. -/
theorem c5_empty_text_amended (note : NoteData) (s : CState) (h : note.text = []) :
    findElementContainingText s.doc note.text = none ∧
    (firstElemWithAttr (js "data-note-id") note.id s.doc = none →
      getElementByXPath s.doc note.elementPath = none →
      applyHighlightFromData note s = (none, scheduleHighlightRetry note s)) := by
  have hf : findElementContainingText s.doc note.text = none := by
    rw [h, findElementContainingText.eq_def, if_pos (by decide)]
  exact ⟨hf, fun h0 h1 => apply_eq_sched note s h0 h1 hf⟩

/-- C5 witness for the amended claim: the empty-text anchor on the sample
page fails the text search and is scheduled for retry. -/
theorem c5_empty_text_amended_witness :
    c5note.text = [] ∧
    findElementContainingText sampleState.doc c5note.text = none ∧
    applyHighlightFromData c5note sampleState =
      (none, scheduleHighlightRetry c5note sampleState) :=
  ⟨rfl, (c5_empty_text_amended c5note sampleState rfl).1,
   (c5_empty_text_amended c5note sampleState rfl).2 rfl rfl⟩

/-- C6 counterexample: a restoration whose resolution fails shows the
"could not locate" toast *and* enqueues an automatic retry (1000 ms timer
registered by the shared resolver), refuting "no automatic retry is
enqueued from that entry point". -/
theorem c6_counterexample :
    (restoreNoteContextSettled c6note sampleState).toastShown = true ∧
    (restoreNoteContextSettled c6note sampleState).state.scheduledRetries =
      [(js "retry_n2", 1000)] := ⟨rfl, rfl⟩

/-- C6 (amended): on restoration failure the "could not locate" notice is
surfaced; when the failure is that no container was found, the entry
point *does* enqueue an automatic retry (through the resolver shared with
the page-load path); only when a container was found but the marker could
not be applied is no retry enqueued. -/
theorem c6_restore_failure_amended (note : NoteData) (s : CState) :
    ((restoreNoteContextSettled note s).result = none →
      (restoreNoteContextSettled note s).toastShown = true) ∧
    (firstElemWithAttr (js "data-note-id") note.id s.doc = none →
      getElementByXPath s.doc note.elementPath = none →
      findElementContainingText s.doc note.text = none →
      (restoreNoteContextSettled note s).state = scheduleHighlightRetry note s ∧
      (restoreNoteContextSettled note s).toastShown = true) ∧
    ∀ p, firstElemWithAttr (js "data-note-id") note.id s.doc = none →
      (getElementByXPath s.doc note.elementPath = some p ∨
        (getElementByXPath s.doc note.elementPath = none ∧
         findElementContainingText s.doc note.text = some p)) →
      tryApplyHighlightDoc s.doc p note = none →
      (restoreNoteContextSettled note s).state = s ∧
      (restoreNoteContextSettled note s).toastShown = true := by
  refine ⟨?_, ?_, ?_⟩
  · intro h
    have h2 : (applyHighlightFromData note s).1 = none := h
    simp [restoreNoteContextSettled, h2]
  · intro h0 h1 h2
    simp [restoreNoteContextSettled, apply_eq_sched note s h0 h1 h2]
  · intro p h0 hel hta
    have happ : applyHighlightFromData note s = tryApplyHighlightS p note s := by
      rcases hel with h1 | ⟨h1, h2⟩
      · exact apply_eq_path note s p h0 h1
      · exact apply_eq_text note s p h0 h1 h2
    have hts : tryApplyHighlightS p note s = (none, s) := by
      rw [tryApplyHighlightS, hta]
    simp [restoreNoteContextSettled, happ, hts]

/-- C6 witness for the amended claim: the dead-path, absent-text anchor
shows the toast and hands the anchor to the scheduler. -/
theorem c6_restore_failure_amended_witness :
    (restoreNoteContextSettled c6note sampleState).state =
      scheduleHighlightRetry c6note sampleState ∧
    (restoreNoteContextSettled c6note sampleState).toastShown = true :=
  (c6_restore_failure_amended c6note sampleState).2.1 rfl rfl rfl

/-- C7: minimum-length gate — for every target text shorter than 3
characters (including the empty text) and every tree, the
container-by-text search returns not-found; such a text can resolve only
via structural-path resolution, and when the path also fails the anchor
goes to the retry scheduler. -/
theorem c7_min_length_gate (doc : Node) (t : JSString) (h : t.length < 3) :
    findElementContainingText doc t = none ∧
    ∀ (note : NoteData) (s : CState), note.text = t → s.doc = doc →
      firstElemWithAttr (js "data-note-id") note.id s.doc = none →
      getElementByXPath s.doc note.elementPath = none →
      applyHighlightFromData note s = (none, scheduleHighlightRetry note s) := by
  have hf : findElementContainingText doc t = none := by
    rw [findElementContainingText.eq_def, if_pos h]
  refine ⟨hf, ?_⟩
  intro note s ht hs h0 h1
  apply apply_eq_sched note s h0 h1
  rw [ht, hs]
  exact hf

/-- C7 witness: the 2-character text `"ab"` is present verbatim in the
sample page yet the text search rejects it, and resolution falls through
to the scheduler. -/
theorem c7_min_length_gate_witness :
    (js "ab").length < 3 ∧
    findElementContainingText sampleDoc (js "ab") = none ∧
    applyHighlightFromData c7note sampleState =
      (none, scheduleHighlightRetry c7note sampleState) := by
  refine ⟨by decide, (c7_min_length_gate sampleDoc (js "ab") (by decide)).1, ?_⟩
  exact (c7_min_length_gate sampleDoc (js "ab") (by decide)).2 c7note sampleState
    rfl rfl rfl rfl

/-- C9 counterexample: a detached element that carries a unique
identifier does not encode to the empty string — `getXPath` returns the
id shortcut path, refuting "for every node that has no parent chain the
encode operation returns the empty string". -/
theorem c9_counterexample :
    getXPath c9elem = js "//*[@id=\"x\"]" ∧ getXPath c9elem ≠ [] :=
  ⟨rfl, by decide⟩

/-- C9 (amended): for every node without a unique identifier that has no
parent chain (and is neither the document root container nor the
top-level element), the structural-path encode operation returns the
empty string; and the decoder treats the empty path as unresolved. -/
theorem c9_detached_amended (tag : JSString) :
    getXPath (.mk tag [] DomCtx.detached) = [] ∧
    ∀ doc : Node, getElementByXPath doc [] = none := by
  constructor
  · simp [getXPath]
  · intro doc
    rw [getElementByXPath, if_neg (by decide)]
    rfl

/-- C10: selection-highlight atomicity — when the selection is absent,
has no range, is collapsed, or its first range's start and end containers
differ, `applyHighlightToSelection` returns false and leaves the document
unchanged (at most clearing the selection); no wrapper is inserted. -/
theorem c10_selection_atomicity (noteId : JSString) (color : Option JSString)
    (doc : Node) :
    applyHighlightToSelection noteId color none doc = (false, doc, none) ∧
    (∀ sel : Selection, rangeCount sel = 0 ∨ sel.isCollapsed = true →
      applyHighlightToSelection noteId color (some sel) doc = (false, doc, some sel)) ∧
    ∀ (sel : Selection) (r : SRange) (rs : List SRange),
      sel.ranges = r :: rs → sel.isCollapsed = false →
      r.startContainer ≠ r.endContainer →
      applyHighlightToSelection noteId color (some sel) doc = (false, doc, none) := by
  refine ⟨rfl, ?_, ?_⟩
  · intro sel h
    rw [applyHighlightToSelection, if_pos h]
  · intro sel r rs hr hc hne
    have hcond : ¬(rangeCount sel = 0 ∨ sel.isCollapsed = true) := by
      simp [rangeCount, hr, hc]
    rw [applyHighlightToSelection, if_neg hcond, hr]
    show (if r.startContainer ≠ r.endContainer then ((false : Bool), doc, none)
      else ((true : Bool), surroundRange doc r (createHighlightSpan noteId color),
        none)) = ((false : Bool), doc, none)
    rw [if_pos hne]

/-- C10 witness: a cross-container selection is rejected with the tree
unchanged and the selection cleared. -/
theorem c10_selection_atomicity_witness :
    applyHighlightToSelection (js "n10") none (some c10sel) sampleDoc =
      (false, sampleDoc, none) :=
  (c10_selection_atomicity (js "n10") none sampleDoc).2.2 c10sel
    { startContainer := [0], startOffset := 0, endContainer := [1], endOffset := 1 }
    [] rfl rfl (by decide)

/-- Event trace for the retry-bound witness: four resolution failures
interleaved with timer firings and a page mutation. -/
def c2evs : List CEvent :=
  [CEvent.resolveFail, CEvent.timerFire, CEvent.resolveFail,
   CEvent.mutate sampleDoc, CEvent.resolveFail, CEvent.timerFire,
   CEvent.resolveFail]

/-- C2: retry bound — for an anchor whose text is never locatable, the
scheduler registers at most 3 retry timers, at linear-backoff delays
`1000 * (retryCount + 1)` (1 s, 2 s, 3 s); the counter reaches exactly 3
when at least 3 resolution failures occur, and once it is 3 every further
failed resolution is a no-op (the anchor is expired and never retried
again automatically). -/
theorem c2_retry_bound (note : NoteData) (evs : List CEvent) (s0 : CState)
    (h1 : s0.retryCounts = []) (h2 : s0.scheduledRetries = [])
    (h3 : findElementContainingText s0.doc note.text = none)
    (h4 : ∀ d, CEvent.mutate d ∈ evs → findElementContainingText d note.text = none) :
    (evs.foldl (cstep note) s0).scheduledRetries =
      (List.range (min (countFails evs) 3)).map
        (fun i => (retryKey note, 1000 * (i + 1))) ∧
    lookupCount ((evs.foldl (cstep note) s0).retryCounts) (retryKey note) =
      min (countFails evs) 3 ∧
    ∀ s : CState, lookupCount s.retryCounts (retryKey note) = 3 →
      cstep note s CEvent.resolveFail = s := by
  have h0l : lookupCount s0.retryCounts (retryKey note) = min 0 3 := by
    simp [h1, lookupCount]
  have h0r : s0.scheduledRetries =
      (List.range (min 0 3)).map (fun i => (retryKey note, 1000 * (i + 1))) := by
    simp [h2]
  obtain ⟨ha, hb⟩ := c2_aux note evs s0 0 h3 h4 h0l h0r
  refine ⟨by simpa using hb, by simpa using ha, ?_⟩
  intro s hs
  show scheduleHighlightRetry note s = s
  simp [scheduleHighlightRetry, hs, maxRetries]

/-- C2 witness: four failures against a page that never contains the
text schedule exactly the timers 1 s, 2 s, 3 s and leave the counter
expired at 3. -/
theorem c2_retry_bound_witness :
    countFails c2evs = 4 ∧
    (c2evs.foldl (cstep c6note) sampleState).scheduledRetries =
      [(js "retry_n2", 1000), (js "retry_n2", 2000), (js "retry_n2", 3000)] ∧
    lookupCount ((c2evs.foldl (cstep c6note) sampleState).retryCounts)
      (js "retry_n2") = 3 := by
  have hmut : ∀ d, CEvent.mutate d ∈ c2evs →
      findElementContainingText d c6note.text = none := by
    intro d hd
    simp [c2evs] at hd
    subst hd
    rfl
  have h := c2_retry_bound c6note c2evs sampleState rfl rfl rfl hmut
  exact ⟨rfl, h.1.trans rfl, h.2.1.trans rfl⟩

/-! ### Observer lemmas (C8) -/

/-- While an observer is attached, its 30-second cap timer is pending. -/
def obsInv (s : ObsState) : Prop :=
  ∀ t, s.observer = some t → (t + 30000) ∈ s.capTimers

theorem obsInv_step (s : ObsState) (e : ObsEvent) (h : obsInv s) :
    obsInv (obsStep s e) := by
  cases e with
  | setup t =>
      intro t2 h2
      by_cases ho : s.observer.isSome
      · simp only [obsStep, if_pos ho] at h2 ⊢
        exact h t2 h2
      · simp only [obsStep, if_neg ho] at h2 ⊢
        simp at h2
        subst h2
        simp
  | capFire t =>
      intro t2 h2
      by_cases hm : t ∈ s.capTimers
      · simp only [obsStep, if_pos hm] at h2
        cases h2
      · simp only [obsStep, if_neg hm] at h2 ⊢
        exact h t2 h2
  | debounceFire t =>
      intro t2 h2
      by_cases hp : s.pending.length = 0
      · simp only [obsStep, if_pos hp] at h2
        cases h2
      · simp only [obsStep, if_neg hp] at h2 ⊢
        by_cases hb : (batchPass s.doc s.pending).2.length = 0
        · rw [if_pos hb] at h2
          cases h2
        · rw [if_neg hb] at h2
          exact h t2 h2
  | mutate t d =>
      intro t2 h2
      simp only [obsStep] at h2 ⊢
      exact h t2 h2

theorem obsInv_run (evs : List ObsEvent) (s : ObsState) (h : obsInv s) :
    obsInv (evs.foldl obsStep s) := by
  induction evs generalizing s with
  | nil => exact h
  | cons e rest ih => exact ih _ (obsInv_step s e h)

theorem obsInv_init (p0 : List NoteData) (d0 : Node) : obsInv (initObs p0 d0) := by
  intro t h
  simp [initObs] at h

/-- Once the observer attached at time `t` is gone, it never comes back
in a trace whose remaining events all happen after time `t`. -/
theorem obs_no_resurrect (t : Nat) :
    ∀ (evs : List ObsEvent) (s : ObsState), s.observer ≠ some t →
      (∀ e ∈ evs, t < eventTime e) →
      (evs.foldl obsStep s).observer ≠ some t := by
  intro evs
  induction evs with
  | nil =>
      intro s h _
      exact h
  | cons e rest ih =>
      intro s h ht
      rw [List.foldl_cons]
      apply ih
      · cases e with
        | setup t2 =>
            by_cases ho : s.observer.isSome
            · simpa [obsStep, ho] using h
            · have htt : t < t2 := by
                simpa [eventTime] using ht (ObsEvent.setup t2) (List.mem_cons_self _ _)
              simp only [obsStep, if_neg ho]
              intro heq
              simp at heq
              omega
        | capFire t2 =>
            by_cases hm : t2 ∈ s.capTimers
            · simp [obsStep, hm]
            · simpa [obsStep, hm] using h
        | debounceFire t2 =>
            by_cases hp : s.pending.length = 0
            · simp [obsStep, hp]
            · simp only [obsStep, if_neg hp]
              by_cases hb : (batchPass s.doc s.pending).2.length = 0
              · simp [hb]
              · simpa [hb] using h
        | mutate t2 d => simpa [obsStep] using h
      · intro e2 he2
        exact ht e2 (List.mem_cons_of_mem _ he2)

/-- Firing the 30-second cap timer of the observer attached at `t`
guarantees that observer is no longer attached. -/
theorem obs_capfire_kills (s : ObsState) (t : Nat) (hinv : obsInv s) :
    (obsStep s (ObsEvent.capFire (t + 30000))).observer ≠ some t := by
  by_cases ho : s.observer = some t
  · have hm := hinv t ho
    simp [obsStep, hm]
  · by_cases hm : (t + 30000) ∈ s.capTimers
    · simp [obsStep, hm]
    · simpa [obsStep, hm] using ho

theorem runObs_take_succ (p0 : List NoteData) (d0 : Node) (evs : List ObsEvent)
    (k : Nat) (hk : k < evs.length) :
    runObs p0 d0 (evs.take (k + 1)) =
      obsStep (runObs p0 d0 (evs.take k)) (evs.get ⟨k, hk⟩) := by
  rw [runObs, runObs, List.take_succ, List.foldl_append]
  rw [List.getElem?_eq_getElem hk]
  rfl

theorem runObs_take_ge (p0 : List NoteData) (d0 : Node) (evs : List ObsEvent)
    (k j : Nat) (hj : k + 1 ≤ j) :
    runObs p0 d0 (evs.take j) =
      ((evs.drop (k + 1)).take (j - (k + 1))).foldl obsStep
        (runObs p0 d0 (evs.take (k + 1))) := by
  rw [runObs, runObs]
  conv_lhs => rw [show j = (k + 1) + (j - (k + 1)) from by omega]
  rw [List.take_add, List.foldl_append]

theorem pairwise_time_later (evs : List ObsEvent)
    (hs : evs.Pairwise (fun a b => eventTime a < eventTime b))
    (k : Nat) (hk : k < evs.length) :
    ∀ e ∈ evs.drop (k + 1), eventTime (evs.get ⟨k, hk⟩) < eventTime e := by
  intro e he
  obtain ⟨m, hme⟩ := List.mem_iff_get.mp he
  have hd : (evs.drop (k + 1)).get m = evs.get ⟨k + 1 + m.1, by
      have := m.2
      simp [List.length_drop] at this
      omega⟩ := by
    rw [List.get_drop]
  rw [← hme, hd]
  exact List.pairwise_iff_get.mp hs _ _ (by simp; omega)

/-! ### Observer claim (C8) -/

/-- Event trace for the observer witness. -/
def c8evs : List ObsEvent :=
  [ObsEvent.setup 100, ObsEvent.mutate 150 sampleDoc,
   ObsEvent.capFire 30100, ObsEvent.setup 40000]

/-- C8: observer hard cap — attaching the observer registers a cap timer
at attachment time + 30000 ms, and in any trace with strictly increasing
event times in which that cap timer fires, the observer attached at time
`t` is no longer attached at any point after the firing — it disconnects
within 30 seconds of attachment regardless of the pending set, the batch
passes, or continuous mutation. -/
theorem c8_observer_hard_cap (p0 : List NoteData) (d0 : Node) (evs : List ObsEvent)
    (hsorted : evs.Pairwise (fun a b => eventTime a < eventTime b))
    (i k t : Nat) (hik : i ≤ k) (hk : k < evs.length)
    (hattach : (runObs p0 d0 (evs.take i)).observer = some t)
    (hfire : evs.get ⟨k, hk⟩ = ObsEvent.capFire (t + 30000)) :
    (∀ j, k < j → (runObs p0 d0 (evs.take j)).observer ≠ some t) ∧
    ∀ (s : ObsState) (t2 : Nat), s.observer = none →
      (obsStep s (ObsEvent.setup t2)).observer = some t2 ∧
      t2 + 30000 ∈ (obsStep s (ObsEvent.setup t2)).capTimers := by
  constructor
  · intro j hj
    have hinv : obsInv (runObs p0 d0 (evs.take k)) :=
      obsInv_run _ _ (obsInv_init p0 d0)
    have hkill : (runObs p0 d0 (evs.take (k + 1))).observer ≠ some t := by
      rw [runObs_take_succ p0 d0 evs k hk, hfire]
      exact obs_capfire_kills _ t hinv
    rw [runObs_take_ge p0 d0 evs k j (by omega)]
    apply obs_no_resurrect t _ _ hkill
    intro e he
    have he2 : e ∈ evs.drop (k + 1) := List.mem_of_mem_take he
    have h3 := pairwise_time_later evs hsorted k hk e he2
    rw [hfire] at h3
    have hev : eventTime (ObsEvent.capFire (t + 30000)) = t + 30000 := rfl
    rw [hev] at h3
    omega
  · intro s t2 hnone
    have ho : ¬ s.observer.isSome := by simp [hnone]
    constructor
    · simp [obsStep, ho]
    · simp [obsStep, ho]

/-- C8 witness: in a concrete trace the observer attached at t=100 has
its cap timer fire at t=30100 and is detached afterwards, although a
mutation arrived meanwhile. -/
theorem c8_observer_hard_cap_witness :
    (runObs [c6note] sampleDoc (c8evs.take 1)).observer = some 100 ∧
    (runObs [c6note] sampleDoc (c8evs.take 3)).observer ≠ some 100 := by
  refine ⟨rfl, ?_⟩
  have hsorted : c8evs.Pairwise (fun a b => eventTime a < eventTime b) := by
    simp [c8evs, List.pairwise_cons, eventTime]
  exact (c8_observer_hard_cap [c6note] sampleDoc c8evs hsorted 1 2 100
    (by omega) (by simp [c8evs]) rfl rfl).1 3 (by omega)

end CrazyNote
